import Mathlib

/-!
# Verification of the event-study engine

This file gives a shallow embedding of the `EventStudy` class of
`src/eventstudy.py` and proves properties of its operations.

Modelling conventions:

* A panel column (one asset's series over the shared calendar) is a
  `List (Option ℚ)`; `none` stands for a missing (NaN) value.
* The pandas `bfill(limit=k)` / `ffill(limit=k)` operations are embedded
  positionally: a missing slot is filled from the nearest valid slot after
  (resp. before) it, provided that slot is at distance at most `k`.
  pandas validates `limit` and raises `ValueError("Limit must be greater
  than 0")` whenever `limit <= 0`; this is embedded by `fillLimit`
  returning `Except`.
* An `EventStudy` value holds the post-construction state: the calendar,
  the per-asset data columns, and the per-asset event columns already
  reindexed onto the calendar (the constructor validates that every
  non-empty event row lies on the calendar, so reindexing loses nothing).
-/

set_option autoImplicit false

namespace EventStudyModel

universe u

variable {α : Type u}

/-! ## Embedding: definitions -/

/-- Validation pandas performs on a fill `limit` argument: it must be a
positive integer, otherwise `ValueError("Limit must be greater than 0")`. -/
def fillLimit (k : Int) : Except String Nat :=
  if k ≤ 0 then .error "Limit must be greater than 0" else .ok k.toNat

/-- Nearest valid value strictly after position `i`, at distance at most `k`. -/
def searchFwd (l : List (Option α)) : Nat → Nat → Option α
  | _, 0 => none
  | i, k + 1 =>
    match (l.get? (i + 1)).join with
    | some v => some v
    | none => searchFwd l (i + 1) k

/-- Nearest valid value strictly before position `i`, at distance at most `k`. -/
def searchBwd (l : List (Option α)) : Nat → Nat → Option α
  | _, 0 => none
  | 0, _ + 1 => none
  | j + 1, k + 1 =>
    match (l.get? j).join with
    | some v => some v
    | none => searchBwd l j k

/-- Value at position `i` after a backward fill with limit `k`
(pandas `bfill(limit=k)`): a missing slot takes the nearest valid value
after it, if within distance `k`. -/
def bfillAt (k : Nat) (l : List (Option α)) (i : Nat) : Option α :=
  match (l.get? i).join with
  | some v => some v
  | none => searchFwd l i k

/-- Value at position `i` after a forward fill with limit `k`
(pandas `ffill(limit=k)`): a missing slot takes the nearest valid value
before it, if within distance `k`. -/
def ffillAt (k : Nat) (l : List (Option α)) (i : Nat) : Option α :=
  match (l.get? i).join with
  | some v => some v
  | none => searchBwd l i k

/-- pandas `Series.bfill(limit=k)`. -/
def bfill (k : Nat) (l : List (Option α)) : List (Option α) :=
  (List.range l.length).map (bfillAt k l)

/-- pandas `Series.ffill(limit=k)`. -/
def ffill (k : Nat) (l : List (Option α)) : List (Option α) :=
  (List.range l.length).map (ffillAt k l)

/-- Embedding of `events_reidx.notnull().replace(False, np.nan)`: the sparse event marker,
`some true` exactly at the event slots of a calendar-aligned event column. -/
def eventMarker (col : List (Option ℚ)) : List (Option Bool) :=
  (col.map Option.isSome).map (fun b => if b then some true else none)

/-- Body of `mark_event_windows` on one event-marker column, after the fill
limits have been validated: `lb = -w_s`, `lf = w_e - event_date_index`.
Mirrors lines 83-101 of `eventstudy.py`. -/
def markMask (lb lf : Nat) (exclAmbig : Bool) (m : List (Option Bool)) : List Bool :=
  (List.range m.length).map (fun i =>
    let raw := (ffillAt lf (bfill lb m) i).isSome
    let conf := (bfillAt lb m i).isSome && (ffillAt lf m i).isSome
      && !(m.getD i none).isSome
    raw && !(exclAmbig && conf))

/-- Embedding of `mark_event_windows` restricted to one asset's calendar-aligned event
column. -/
def markColPure (lb lf : Nat) (exclAmbig : Bool) (col : List (Option ℚ)) : List Bool :=
  markMask lb lf exclAmbig (eventMarker col)

/-- Post-construction state of an `EventStudy` instance.  `data` and
`events` hold one column per asset; event columns are stored reindexed
onto the calendar. -/
structure EventStudy where
  calendar : List Nat
  data : List (List (Option ℚ))
  events : List (List (Option ℚ))
  window : Int × Int
  event_date_index : Int
  deriving Repr, DecidableEq

/-- Backward fill limit used by `mark_event_windows`: `-w_s` (as a `Nat`,
meaningful whenever the pandas validation passes, i.e. `w_s < 0`). -/
def lbNat (es : EventStudy) : Nat := (-(es.window.1)).toNat

/-- Forward fill limit used by `mark_event_windows`:
`w_e - event_date_index`. -/
def lfNat (es : EventStudy) : Nat := (es.window.2 - es.event_date_index).toNat

/-- Embedding of `EventStudy.mark_event_windows` (lines 61-101 of `eventstudy.py`).
Fails exactly where pandas raises: a fill `limit` that is not positive. -/
def markEventWindows (es : EventStudy) (exclAmbig : Bool) :
    Except String (List (List Bool)) := do
  let lb ← fillLimit (-(es.window.1))
  let lf ← fillLimit (es.window.2 - es.event_date_index)
  return es.events.map (markColPure lb lf exclAmbig)

/-! ## Concrete engines used as witnesses -/

/-- Engine with a single event and the typical window `(-1, 1)`. -/
def esA : EventStudy :=
  { calendar := [0, 1, 2]
    data := [[some 1, some 2, some 3]]
    events := [[none, some 1, none]]
    window := (-1, 1)
    event_date_index := 0 }

/-- Engine with two events two periods apart and window `(-2, 2)`, so the
slots between them are ambiguous. -/
def esB : EventStudy :=
  { calendar := [0, 1, 2, 3, 4, 5, 6, 7]
    data := [[some 1, some 2, some 3, some 4, some 5, some 6, some 7, some 8]]
    events := [[none, none, some 1, none, none, some 1, none, none]]
    window := (-2, 2)
    event_date_index := 0 }

/-- Engine whose window starts at `0`: the pandas fill-limit validation
rejects `bfill(limit=0)`. -/
def esC8bad : EventStudy :=
  { calendar := [0, 1, 2]
    data := [[some 1, some 2, some 3]]
    events := [[none, some 1, none]]
    window := (0, 2)
    event_date_index := 0 }

/-- Same event positions as `esD2` but different data values and event
magnitudes. -/
def esD1 : EventStudy :=
  { calendar := [0, 1, 2, 3]
    data := [[some 1, some 2, some 3, some 4]]
    events := [[none, some 1, none, none]]
    window := (-1, 1)
    event_date_index := 0 }

/-- Same event positions as `esD1` but different data values and event
magnitudes. -/
def esD2 : EventStudy :=
  { calendar := [0, 1, 2, 3]
    data := [[some 9, some 8, some 7, some 6]]
    events := [[none, some 42, none, none]]
    window := (-1, 1)
    event_date_index := 0 }

/-- Engine with a single isolated event but `event_date_index = 1`:
`mark_event_windows` marks `(end - event_date_index) - start + 1 = 3`
slots, not `end - start + 1 = 4` as the claim computes. -/
def esC3bad : EventStudy :=
  { calendar := [0, 1, 2, 3, 4, 5]
    data := [[some 1, some 2, some 3, some 4, some 5, some 6]]
    events := [[none, none, some 1, none, none, none]]
    window := (-1, 2)
    event_date_index := 1 }

/-- Engine with a single isolated event, window `(-1, 2)` and
`event_date_index = 0`. -/
def esC3w : EventStudy :=
  { calendar := [0, 1, 2, 3, 4, 5]
    data := [[some 1, some 2, some 3, some 4, some 5, some 6]]
    events := [[none, none, some 1, none, none, none]]
    window := (-1, 2)
    event_date_index := 0 }

/-! ## C6: construction-time alignment validation -/

/-- Timestamps that actually carry an event: the index entries of
`events.dropna(how="all")`, i.e. raw event rows with at least one
non-missing entry. -/
def eventTimestamps (evIdx : List Nat) (evRows : List (List (Option ℚ))) :
    List Nat :=
  ((evIdx.zip evRows).filter (fun p => p.2.any Option.isSome)).map Prod.fst

/-- Embedding of `len(data.index.union(events.dropna(how="all").index))`: the number of
distinct timestamps in the union of the panel calendar and the event
timestamps. -/
def unionLen (dataIdx : List Nat) (evIdx : List Nat)
    (evRows : List (List (Option ℚ))) : Nat :=
  ((dataIdx ++ eventTimestamps evIdx evRows).dedup).length

/-- Raw event value of asset `a` at timestamp `t` (used to reindex the
events onto the panel calendar). -/
def evLookup (evIdx : List Nat) (evRows : List (List (Option ℚ)))
    (a : Nat) (t : Nat) : Option ℚ :=
  ((evIdx.zip evRows).find? (fun p => p.1 == t)).bind (fun p => (p.2.get? a).join)

/-- Embedding of `EventStudy.__init__` (lines 24-59 of `eventstudy.py`): raises when the
union of the panel timestamps and the event timestamps is strictly larger
than the panel's own timestamp count, otherwise stores the panel and the
events reindexed onto its calendar. -/
def mkEventStudy (dataIdx : List Nat) (dataCols : List (List (Option ℚ)))
    (evIdx : List Nat) (evRows : List (List (Option ℚ)))
    (window : Int × Int) (edi : Int) : Except String EventStudy :=
  if dataIdx.length < unionLen dataIdx evIdx evRows then
    .error "Some event dates are not present in `data`. Align `data` and `events` first."
  else
    .ok { calendar := dataIdx
          data := dataCols
          events := (List.range dataCols.length).map
            (fun a => dataIdx.map (evLookup evIdx evRows a))
          window := window
          event_date_index := edi }

/-! ## C4: the event-count-weighted mean -/

/-- Count of non-missing entries (pandas `count`). -/
def nnCount (g : List (Option ℚ)) : Nat := g.countP (fun x => x.isSome)

/-- pandas NaN-skipping `mean`: missing when every entry is missing. -/
def nanMean (g : List (Option ℚ)) : Option ℚ :=
  let v := g.filterMap id
  if v.length = 0 then none else some (v.sum / v.length)

/-- pandas NaN-skipping `sum` (an all-missing sum is `0.0`). -/
def nanSum (l : List (Option ℚ)) : ℚ := (l.filterMap id).sum

/-- Embedding of `EventStudy.event_weighted_mean` on one relative-offset row of the
event-relative panel, grouped by asset (lines 176-189 of `eventstudy.py`):
`df.mean(axis=1, level=0).mul(df.count(axis=1, level=0))
.div(df.count(axis=1, level=0).sum(axis=1), axis=0).sum(axis=1)`,
with pandas NaN propagation (an asset with no data has a NaN mean, its
whole term is NaN, and the final NaN-skipping sum drops it). -/
def event_weighted_mean_row (row : List (List (Option ℚ))) : ℚ :=
  nanSum (row.map (fun g => (nanMean g).map
    (fun mg => mg * (nnCount g : ℚ) / ((row.map nnCount).sum : ℕ))))

/-- Embedding of `EventStudy.event_weighted_mean` over the whole event-relative panel,
one entry per relative offset. -/
def event_weighted_mean (df : List (List (List (Option ℚ)))) : List ℚ :=
  df.map event_weighted_mean_row

/-- Modelled from the spec formula (4.4): per offset,
`sum_over_assets(mean * count) / sum_over_assets(count)`, where an asset
with no non-missing event value contributes no term. -/
def eventWeightedMeanSpecRow (row : List (List (Option ℚ))) : ℚ :=
  nanSum (row.map (fun g => (nanMean g).map (fun mg => mg * (nnCount g : ℚ))))
    / ((row.map nnCount).sum : ℕ)

/-! ## C1: the pivot to event-relative coordinates -/

/-- pandas `xs.fillna(ys)` on aligned series: keep `xs` where present,
else take `ys`. -/
def fillnaWith (xs ys : List (Option α)) : List (Option α) :=
  List.zipWith (fun x y => x.orElse (fun _ => y)) xs ys

/-- State of the growth loop in `EventStudy.pivot` (lines 128-140): the
anchor event date and the relative offset per calendar slot, plus the two
counters gating backward and forward growth. -/
structure GrowState where
  evtDates : List (Option Nat)
  periods : List (Option Int)
  countBef : Int
  countAft : Int
  deriving Repr, DecidableEq

/-- One iteration of the pivot growth loop: grow one step backward while
`count_bef >= w_s`, then one step forward while `count_aft <= w_e`. -/
def growStep (wS wE : Int) (st : GrowState) : GrowState :=
  let st1 :=
    if wS ≤ st.countBef then
      { st with
        evtDates := bfill 1 st.evtDates
        periods := fillnaWith st.periods
          (bfill 1 (st.periods.map (Option.map (fun t => t - 1))))
        countBef := st.countBef - 1 }
    else st
  if st1.countAft ≤ wE then
    { st1 with
      evtDates := ffill 1 st1.evtDates
      periods := fillnaWith st1.periods
        (ffill 1 (st1.periods.map (Option.map (fun t => t + 1))))
      countAft := st1.countAft + 1 }
  else st1

/-- Iterated (`for _p in range(k)`) application of `growStep`. -/
def growLoop (wS wE : Int) : Nat → GrowState → GrowState
  | 0, st => st
  | k + 1, st => growLoop wS wE k (growStep wS wE st)

/-- pandas `xs.where(mask)`: keep the value where the mask is true. -/
def maskWhere (xs : List (Option α)) (mask : List Bool) : List (Option α) :=
  List.zipWith (fun x b => if b then x else none) xs mask

/-- Embedding of `EventStudy.pivot` (lines 103-174) up to the final reshape, for one
asset: the per-slot (anchor event date, relative offset) pairs after the
growth loop and the ambiguity-excluding window mask. -/
def pivotPairs (calendar : List Nat) (evtCol : List (Option ℚ))
    (window : Int × Int) (edi : Int) :
    Except String (List (Option Nat) × List (Option Int)) := do
  let evtDates0 := List.zipWith
    (fun t (e : Option ℚ) => if e.isSome then some t else none) calendar evtCol
  let periods0 : List (Option Int) :=
    evtCol.map (fun e => if e.isSome then some edi else none)
  let st := growLoop window.1 window.2
    (max window.1.natAbs window.2.natAbs)
    { evtDates := evtDates0
      periods := periods0
      countBef := -1
      countAft := if edi = 1 then 1 else 0 }
  let lb ← fillLimit (-window.1)
  let lf ← fillLimit (window.2 - edi)
  let mask := markColPure lb lf true evtCol
  return (maskWhere st.evtDates mask, maskWhere st.periods mask)

/-- Cell of the pivoted event-relative table for one asset: the panel
value at the slot carrying anchor date `anchor` and relative offset `t`,
with the row index restricted to the closed range `[w_s, w_e]`
(`res.loc[w_s:w_e]`). -/
def pivotVal (es : EventStudy) (a : Nat) (anchor : Nat) (t : Int) :
    Except String (Option ℚ) := do
  let (ed, pr) ← pivotPairs es.calendar (es.events.getD a [])
    es.window es.event_date_index
  if es.window.1 ≤ t ∧ t ≤ es.window.2 then
    match (List.range es.calendar.length).find? (fun i =>
        ed.getD i none == some anchor && pr.getD i none == some t) with
    | some i => return ((es.data.getD a []).get? i).join
    | none => return none
  else
    return none

/-- Row index of the pivoted table restricted to one asset: the distinct
relative offsets that occur, clipped to `[w_s, w_e]` and sorted. -/
def pivotRowIndex (es : EventStudy) (a : Nat) : Except String (List Int) := do
  let (_, pr) ← pivotPairs es.calendar (es.events.getD a [])
    es.window es.event_date_index
  return (((pr.filterMap id).dedup.filter
    (fun t => es.window.1 ≤ t && t ≤ es.window.2)).insertionSort (· ≤ ·))

/-- Engine of the concrete scenario: a panel of 10 daily values `1..10`
for one asset, a single event at day 5 (index 4), window `(-2, 2)`,
`event_date_index = 0`. -/
def esC1 : EventStudy :=
  { calendar := [1, 2, 3, 4, 5, 6, 7, 8, 9, 10]
    data := [[some 1, some 2, some 3, some 4, some 5, some 6, some 7,
      some 8, some 9, some 10]]
    events := [[none, none, none, none, some 1, none, none, none, none,
      none]]
    window := (-2, 2)
    event_date_index := 0 }

/-! ## C5, C7: the block bootstrap -/

/-- Rows of `self.data.where(~mask)`: the panel in row-major form with
every slot inside some event window (per the ambiguity-inclusive mask)
blanked out. -/
def maskedRows (n : Nat) (data : List (List (Option ℚ)))
    (mask : List (List Bool)) : List (List (Option ℚ)) :=
  (List.range n).map (fun i =>
    (List.range data.length).map (fun a =>
      if (mask.getD a []).getD i false then none
      else ((data.getD a []).get? i).join))

/-- Embedding of `self.data.where(~mask).dropna(how="all")`: the event-free pool, rows
with at least one surviving value. -/
def eventFreePool (n : Nat) (data : List (List (Option ℚ)))
    (mask : List (List Bool)) : List (List (Option ℚ)) :=
  (maskedRows n data mask).filter (fun r => r.any Option.isSome)

/-- Embedding of `boot_from.iloc[p:p+block_size]`. -/
def blockAt (pool : List (List (Option ℚ))) (bs p : Nat) :
    List (List (Option ℚ)) :=
  (pool.drop p).take bs

/-- Non-missing count of column `a` of a row-major table
(`booted.count()` for one asset). -/
def colCountRows (rows : List (List (Option ℚ))) (a : Nat) : Nat :=
  rows.countP (fun r => (r.getD a none).isSome)

/-- Embedding of `booted.count().lt(self.data.count()).any()`: is some asset's
non-missing count still below the original panel's? -/
def anyShort (rows : List (List (Option ℚ))) (counts : List Nat) : Bool :=
  (List.range counts.length).any
    (fun a => decide (colCountRows rows a < counts.getD a 0))

/-- The `while` loop of `bootstrap_wo_events` (lines 220-223): append one
random block at a time until no asset is short.  Fuel bounds the number of
iterations; the random draws are consumed from `rnd`. -/
def bootGrow (pool : List (List (Option ℚ))) (bs bound : Nat)
    (counts : List Nat) :
    Nat → List Nat → List (List (Option ℚ)) →
      Except String (List (List (Option ℚ)) × List Nat)
  | 0, _, _ => .error "bootstrap loop fuel exhausted"
  | _ + 1, [], booted =>
    if anyShort booted counts then .error "random stream exhausted"
    else .ok (booted, [])
  | fuel + 1, d :: rnd', booted =>
    if anyShort booted counts then
      bootGrow pool bs bound counts fuel rnd'
        (booted ++ blockAt pool bs (d % bound))
    else .ok (booted, d :: rnd')

/-- Sampling without replacement from the remaining population `avail`:
each random draw picks one element by index; mirrors
`np.random.choice(..., replace=False)` in that the result is a duplicate-
free selection of the population. -/
def drawWoRGo : Nat → List Nat → List Nat → Except String (List Nat × List Nat)
  | 0, _, rnd => .ok ([], rnd)
  | _ + 1, _, [] => .error "random stream exhausted"
  | _ + 1, [], _ :: _ => .error "population exhausted"
  | v + 1, x :: avail, d :: rnd => do
    let i := d % (x :: avail).length
    let picked := (x :: avail).getD i 0
    let (ps, rnd') ← drawWoRGo v ((x :: avail).eraseIdx i) rnd
    return (picked :: ps, rnd')

/-- Embedding of `np.random.choice(np.arange(bound), v, replace=False)`: raises when
asked for more samples than the population holds. -/
def drawWoR (bound v : Nat) (rnd : List Nat) :
    Except String (List Nat × List Nat) :=
  if bound < v then
    .error "Cannot take a larger sample than population when replace is False"
  else drawWoRGo v (List.range bound) rnd

/-- Synthetic event column: magnitude 1 at each drawn row position
(`pd.Series(index=positions, data=1)` reindexed onto the synthetic
calendar). -/
def eventColFromPositions (len : Nat) (ps : List Nat) : List (Option ℚ) :=
  (List.range len).map (fun i => if ps.contains i then some 1 else none)

/-- Per-asset synthetic event columns: for each asset, draw as many
distinct positions as the asset's original event count. -/
def drawEventCols (len : Nat) :
    List Nat → List Nat → Except String (List (List (Option ℚ)) × List Nat)
  | [], rnd => .ok ([], rnd)
  | v :: vs, rnd => do
    let (ps, rnd1) ← drawWoR len v rnd
    let (cols, rnd2) ← drawEventCols len vs rnd1
    return (eventColFromPositions len ps :: cols, rnd2)

/-- Column-major view of a row-major table with `numAssets` columns. -/
def transposeRows (numAssets : Nat) (rows : List (List (Option ℚ))) :
    List (List (Option ℚ)) :=
  (List.range numAssets).map (fun a => rows.map (fun r => r.getD a none))

/-- Embedding of `EventStudy.bootstrap_wo_events` (lines 191-235).  Randomness is
injected as a stream of draws `rnd`; `fuel` bounds the count-matching
`while` loop.  Failure points mirror the python code in order: the
zero division in `np.ceil(len(self.data) / block_size)`, the fill-limit
validation inside `mark_event_windows`, and `np.random.choice` over the
empty `np.arange(len(boot_from) - block_size)` when the block size is at
least the pool length. -/
def bootstrap_wo_events (es : EventStudy) (blockSize : Option Nat)
    (rnd : List Nat) (fuel : Nat) : Except String EventStudy :=
  let n := es.calendar.length
  let bs := blockSize.getD (min 10 (Nat.sqrt n))
  if bs = 0 then .error "division by zero"
  else
    let nBlocks := (n + bs - 1) / bs
    match markEventWindows es false with
    | .error e => .error e
    | .ok mask =>
      let pool := eventFreePool n es.data mask
      if (pool.length : Int) - (bs : Int) ≤ 0 then .error "a must be non-empty"
      else
        let bound := pool.length - bs
        if rnd.length < nBlocks * 2 then .error "random stream exhausted"
        else
          let draws := (rnd.take (nBlocks * 2)).map (fun d => d % bound)
          match bootGrow pool bs bound (es.data.map nnCount) fuel
              (rnd.drop (nBlocks * 2)) ((draws.map (blockAt pool bs)).join) with
          | .error e => .error e
          | .ok (booted, rnd2) =>
            match drawEventCols booted.length (es.events.map nnCount) rnd2 with
            | .error e => .error e
            | .ok (evCols, _) =>
              .ok { calendar := List.range booted.length
                    data := transposeRows es.data.length booted
                    events := evCols
                    window := es.window
                    event_date_index := es.event_date_index }

/-- Engine for the bootstrap witnesses: 8 calendar slots, one asset, one
event at index 6, window `(-1, 1)`: the event-free pool is rows 0-4. -/
def esC5 : EventStudy :=
  { calendar := [0, 1, 2, 3, 4, 5, 6, 7]
    data := [[some 1, some 2, some 3, some 4, some 5, some 6, some 7,
      some 8]]
    events := [[none, none, none, none, none, none, some 1, none]]
    window := (-1, 1)
    event_date_index := 0 }

/-- Result of the concrete bootstrap run used as the C5 witness:
`bootstrap_wo_events esC5 (some 2) [0,...,0] 1`.  The pool is rows 0-4,
eight blocks of two rows are drawn at offset 0, and one synthetic event is
placed at row 0. -/
def esC5boot : EventStudy :=
  { calendar := [0, 1, 2, 3, 4, 5, 6, 7, 8, 9, 10, 11, 12, 13, 14, 15]
    data := [[some 1, some 2, some 1, some 2, some 1, some 2, some 1,
      some 2, some 1, some 2, some 1, some 2, some 1, some 2, some 1,
      some 2]]
    events := [[some 1, none, none, none, none, none, none, none, none,
      none, none, none, none, none, none, none]]
    window := (-1, 1)
    event_date_index := 0 }

/-! ## Theorems -/

/-! ## Characterizations of the bounded fills -/

theorem searchFwd_isSome_iff (l : List (Option α)) (i k : Nat) :
    (searchFwd l i k).isSome ↔
      ∃ j, i < j ∧ j ≤ i + k ∧ ((l.get? j).join).isSome := by
  induction k generalizing i with
  | zero =>
    refine ⟨fun h => absurd h (by simp [searchFwd]), ?_⟩
    rintro ⟨j, h1, h2, -⟩; omega
  | succ k ih =>
    rw [searchFwd]
    cases h : (l.get? (i + 1)).join with
    | some v =>
      simp only [Option.isSome_some, true_iff]
      exact ⟨i + 1, by omega, by omega, by rw [h]; rfl⟩
    | none =>
      rw [ih]
      constructor
      · rintro ⟨j, h1, h2, h3⟩
        exact ⟨j, by omega, by omega, h3⟩
      · rintro ⟨j, h1, h2, h3⟩
        refine ⟨j, ?_, by omega, h3⟩
        rcases Nat.lt_or_ge (i + 1) j with h4 | h4
        · exact h4
        · exfalso
          have : j = i + 1 := by omega
          rw [this, h] at h3
          exact Bool.noConfusion h3

theorem searchBwd_isSome_iff (l : List (Option α)) (i k : Nat) :
    (searchBwd l i k).isSome ↔
      ∃ j, j < i ∧ i ≤ j + k ∧ ((l.get? j).join).isSome := by
  induction k generalizing i with
  | zero =>
    refine ⟨fun h => absurd h (by simp [searchBwd]), ?_⟩
    rintro ⟨j, h1, h2, -⟩; omega
  | succ k ih =>
    cases i with
    | zero =>
      refine ⟨fun h => absurd h (by simp [searchBwd]), ?_⟩
      rintro ⟨j, h1, -, -⟩; omega
    | succ j0 =>
      rw [searchBwd]
      cases h : (l.get? j0).join with
      | some v =>
        simp only [Option.isSome_some, true_iff]
        exact ⟨j0, by omega, by omega, by rw [h]; rfl⟩
      | none =>
        rw [ih]
        constructor
        · rintro ⟨j, h1, h2, h3⟩
          exact ⟨j, by omega, by omega, h3⟩
        · rintro ⟨j, h1, h2, h3⟩
          refine ⟨j, ?_, by omega, h3⟩
          rcases Nat.lt_or_ge j j0 with h4 | h4
          · exact h4
          · exfalso
            have : j = j0 := by omega
            rw [this, h] at h3
            exact Bool.noConfusion h3

theorem bfillAt_of_join_eq_some {l : List (Option α)} {i : Nat} {v : α}
    (h : (l.get? i).join = some v) (k : Nat) : bfillAt k l i = some v := by
  rw [bfillAt, h]

theorem ffillAt_of_join_eq_some {l : List (Option α)} {i : Nat} {v : α}
    (h : (l.get? i).join = some v) (k : Nat) : ffillAt k l i = some v := by
  rw [ffillAt, h]

theorem bfillAt_isSome_iff (k : Nat) (l : List (Option α)) (i : Nat) :
    (bfillAt k l i).isSome ↔
      ∃ j, i ≤ j ∧ j ≤ i + k ∧ ((l.get? j).join).isSome := by
  rw [bfillAt]
  cases h : (l.get? i).join with
  | some v =>
    simp only [Option.isSome_some, true_iff]
    exact ⟨i, le_refl i, by omega, by rw [h]; rfl⟩
  | none =>
    rw [searchFwd_isSome_iff]
    constructor
    · rintro ⟨j, h1, h2, h3⟩
      exact ⟨j, by omega, h2, h3⟩
    · rintro ⟨j, h1, h2, h3⟩
      refine ⟨j, ?_, h2, h3⟩
      rcases Nat.lt_or_ge i j with h4 | h4
      · exact h4
      · exfalso
        have : j = i := by omega
        rw [this, h] at h3
        exact Bool.noConfusion h3

theorem ffillAt_isSome_iff (k : Nat) (l : List (Option α)) (i : Nat) :
    (ffillAt k l i).isSome ↔
      ∃ j, j ≤ i ∧ i ≤ j + k ∧ ((l.get? j).join).isSome := by
  rw [ffillAt]
  cases h : (l.get? i).join with
  | some v =>
    simp only [Option.isSome_some, true_iff]
    exact ⟨i, le_refl i, by omega, by rw [h]; rfl⟩
  | none =>
    rw [searchBwd_isSome_iff]
    constructor
    · rintro ⟨j, h1, h2, h3⟩
      exact ⟨j, by omega, h2, h3⟩
    · rintro ⟨j, h1, h2, h3⟩
      refine ⟨j, ?_, h2, h3⟩
      rcases Nat.lt_or_ge j i with h4 | h4
      · exact h4
      · exfalso
        have : j = i := by omega
        rw [this, h] at h3
        exact Bool.noConfusion h3

@[simp] theorem length_bfill (k : Nat) (l : List (Option α)) :
    (bfill k l).length = l.length := by
  simp [bfill]

@[simp] theorem length_ffill (k : Nat) (l : List (Option α)) :
    (ffill k l).length = l.length := by
  simp [ffill]

theorem get?_bfill (k : Nat) (l : List (Option α)) {i : Nat} (h : i < l.length) :
    (bfill k l).get? i = some (bfillAt k l i) := by
  rw [bfill, List.get?_map, List.get?_range h]; rfl

theorem get?_bfill_of_ge (k : Nat) (l : List (Option α)) {i : Nat}
    (h : l.length ≤ i) : (bfill k l).get? i = none := by
  rw [List.get?_eq_none]; simpa using h

@[simp] theorem length_eventMarker (col : List (Option ℚ)) :
    (eventMarker col).length = col.length := by
  simp [eventMarker]

theorem eventMarker_join (col : List (Option ℚ)) (j : Nat) :
    ((eventMarker col).get? j).join =
      if ((col.get? j).join).isSome then some true else none := by
  rw [eventMarker, List.get?_map, List.get?_map]
  cases h : col.get? j with
  | none => rfl
  | some x => cases x <;> rfl

theorem eventMarker_join_isSome_iff (col : List (Option ℚ)) (j : Nat) :
    (((eventMarker col).get? j).join).isSome ↔ (((col.get? j).join)).isSome := by
  rw [eventMarker_join]
  cases h : ((col.get? j).join).isSome <;> simp [h]

@[simp] theorem length_markMask (lb lf : Nat) (e : Bool) (m : List (Option Bool)) :
    (markMask lb lf e m).length = m.length := by
  simp [markMask]

theorem get?_markMask (lb lf : Nat) (e : Bool) (m : List (Option Bool)) {i : Nat}
    (h : i < m.length) :
    (markMask lb lf e m).get? i =
      some ((ffillAt lf (bfill lb m) i).isSome &&
        !(e && ((bfillAt lb m i).isSome && (ffillAt lf m i).isSome
          && !(m.getD i none).isSome))) := by
  rw [markMask, List.get?_map, List.get?_range h]
  rfl

@[simp] theorem length_markColPure (lb lf : Nat) (e : Bool) (col : List (Option ℚ)) :
    (markColPure lb lf e col).length = col.length := by
  simp [markColPure]

/-- Success characterization of `mark_event_windows`: it returns a mask
precisely when both pandas fill limits are positive, i.e. the window start
is negative and the adjusted window end is positive. -/
theorem markEventWindows_eq_ok_iff (es : EventStudy) (excl : Bool)
    (mask : List (List Bool)) :
    markEventWindows es excl = .ok mask ↔
      es.window.1 < 0 ∧ es.event_date_index < es.window.2 ∧
        mask = es.events.map (markColPure (lbNat es) (lfNat es) excl) := by
  by_cases h1 : -(es.window.1) ≤ 0
  · simp only [markEventWindows, fillLimit, if_pos h1]
    constructor
    · intro h; exact absurd h (by simp [Bind.bind, Except.bind])
    · rintro ⟨h, -, -⟩; omega
  · by_cases h2 : es.window.2 - es.event_date_index ≤ 0
    · simp only [markEventWindows, fillLimit, if_neg h1, if_pos h2]
      constructor
      · intro h; exact absurd h (by simp [Bind.bind, Except.bind])
      · rintro ⟨-, h, -⟩; omega
    · simp only [markEventWindows, fillLimit, if_neg h1, if_neg h2]
      constructor
      · intro h
        refine ⟨by omega, by omega, ?_⟩
        simpa [Bind.bind, Except.bind, pure, Except.pure, lbNat, lfNat,
          eq_comm] using h
      · rintro ⟨-, -, h⟩
        simp [Bind.bind, Except.bind, pure, Except.pure, lbNat, lfNat, h]

theorem markMask_close_events_example :
    markMask 1 1 true [none, some true, none, some true, none] =
      [true, true, false, true, true] := by decide

theorem markMask_close_events_no_excl_example :
    markMask 1 1 false [none, some true, none, some true, none] =
      [true, true, true, true, true] := by decide

theorem markMask_isolated_event_example :
    markMask 2 2 true [none, none, some true, none, none, none] =
      [true, true, true, true, true, false] := by decide

/-! ## C8: totality of `mark_event_windows` over window specs -/

/-- C8 (counterexample): the claim says `mark_event_windows` completes and
returns a mask even when `start = 0`; on the engine `esC8bad` with window
`(0, 2)` the pandas fill-limit validation raises instead. -/
theorem mark_event_windows_start_zero_cex :
    markEventWindows esC8bad true = .error "Limit must be greater than 0" := by
  rfl

/-- C8 (amended): `mark_event_windows` completes and returns a boolean mask
of the panel's shape precisely on windows with `start < 0` and
`end - event_date_index > 0`; the code does assume this (the pandas fill
limits must be positive), contrary to the spec's "the design must not
assume it". This theorem is the positive half; the counterexample shows
the failure at `start = 0`. -/
theorem mark_event_windows_ok_iff_valid_limits (es : EventStudy) (excl : Bool)
    (hlen : es.events.length = es.data.length)
    (hcols : ∀ (a : Nat) (cE cD : List (Option ℚ)),
      es.events.get? a = some cE → es.data.get? a = some cD →
        cE.length = cD.length)
    (h1 : es.window.1 < 0) (h2 : es.event_date_index < es.window.2) :
    ∃ mask, markEventWindows es excl = .ok mask ∧
      mask.length = es.data.length ∧
      ∀ (a : Nat) (cM : List Bool) (cD : List (Option ℚ)),
        mask.get? a = some cM → es.data.get? a = some cD →
          cM.length = cD.length := by
  refine ⟨es.events.map (markColPure (lbNat es) (lfNat es) excl),
    (markEventWindows_eq_ok_iff es excl _).mpr ⟨h1, h2, rfl⟩, ?_, ?_⟩
  · rw [List.length_map, hlen]
  · intro a cM cD hM hD
    rw [List.get?_map] at hM
    cases hE : es.events.get? a with
    | none => rw [hE] at hM; exact absurd hM (by simp)
    | some cE =>
      rw [hE] at hM
      have hcm : markColPure (lbNat es) (lfNat es) excl cE = cM :=
        Option.some.inj hM
      rw [← hcm, length_markColPure]
      exact hcols a cE cD hE hD

/-- C8 (witness). -/
theorem mark_event_windows_ok_iff_valid_limits_witness :
    esA.window.1 < 0 ∧ esA.event_date_index < esA.window.2 ∧
      (∃ mask, markEventWindows esA true = .ok mask ∧
        mask.length = esA.data.length ∧
        ∀ (a : Nat) (cM : List Bool) (cD : List (Option ℚ)),
          mask.get? a = some cM → esA.data.get? a = some cD →
            cM.length = cD.length) :=
  ⟨by decide, by decide,
    mark_event_windows_ok_iff_valid_limits esA true (by decide)
      (by
        intro a cE cD hE hD
        match a with
        | 0 =>
          rw [show esA.events.get? 0 = some [none, some 1, none] from rfl] at hE
          rw [show esA.data.get? 0 = some [some 1, some 2, some 3] from rfl] at hD
          rw [← Option.some.inj hE, ← Option.some.inj hD]
          rfl
        | n + 1 =>
          exact absurd hE (by
            rw [show esA.events.get? (n + 1) = none from rfl]
            simp))
      (by decide) (by decide)⟩

/-! ## C9: the mask is true at every event slot -/

/-- C9: for every engine whose window satisfies
`start <= 0 <= end - event_date_index` and for both settings of the
ambiguity-exclusion flag, the mask returned by `mark_event_windows` is true
at every slot that is itself an event timestamp: ambiguity exclusion never
removes an event slot. -/
theorem mark_event_windows_true_at_event_slots (es : EventStudy) (excl : Bool)
    (mask : List (List Bool))
    (hw1 : es.window.1 ≤ 0) (hw2 : es.event_date_index ≤ es.window.2)
    (hok : markEventWindows es excl = .ok mask)
    (a i : Nat) (cE : List (Option ℚ)) (cM : List Bool)
    (hE : es.events.get? a = some cE) (hM : mask.get? a = some cM)
    (hev : ((cE.get? i).join).isSome) :
    cM.get? i = some true := by
  obtain ⟨hs, he, hmask⟩ := (markEventWindows_eq_ok_iff es excl mask).mp hok
  subst hmask
  rw [List.get?_map, hE] at hM
  have hcm : markColPure (lbNat es) (lfNat es) excl cE = cM :=
    Option.some.inj hM
  subst hcm
  have hi : i < cE.length := by
    by_contra hlt
    rw [List.get?_eq_none.mpr (by omega)] at hev
    exact Bool.noConfusion hev
  have hm : ((eventMarker cE).get? i).join = some true := by
    rw [eventMarker_join, if_pos hev]
  have hb : ((bfill (lbNat es) (eventMarker cE)).get? i).join = some true := by
    rw [get?_bfill _ _ (by simpa using hi),
      bfillAt_of_join_eq_some hm (lbNat es)]
    rfl
  have hraw : ffillAt (lfNat es) (bfill (lbNat es) (eventMarker cE)) i
      = some true := ffillAt_of_join_eq_some hb (lfNat es)
  have hgd : (eventMarker cE).getD i none = some true := by
    have h9 : (eventMarker cE).get? i = some (some true) := by
      cases h8 : (eventMarker cE).get? i with
      | none =>
        rw [h8] at hm; exact Option.noConfusion hm
      | some x =>
        rw [h8] at hm
        exact congrArg some hm
    rw [List.getD_eq_getD_get?, h9]
    rfl
  rw [markColPure, get?_markMask _ _ _ _ (by simpa using hi), hraw, hgd]
  simp

/-- C9 (witness). -/
theorem mark_event_windows_true_at_event_slots_witness :
    markEventWindows esA true = .ok [[true, true, true]] ∧
      ([true, true, true] : List Bool).get? 1 = some true :=
  ⟨by rfl,
    mark_event_windows_true_at_event_slots esA true [[true, true, true]]
      (by decide) (by decide) (by rfl) 0 1 [none, some 1, none]
      [true, true, true] (by rfl) (by rfl) (by rfl)⟩

/-! ## C2: ambiguous slots are excluded -/

/-- C2: for every engine and every slot that lies within `-start` periods
before one event (reachable by backward fill), within
`end - event_date_index` periods after another event (reachable by forward
fill), and is not itself an event timestamp, `mark_event_windows` with
ambiguity exclusion enabled returns `false` at that slot. -/
theorem mark_event_windows_excludes_ambiguous_slot (es : EventStudy)
    (mask : List (List Bool))
    (hok : markEventWindows es true = .ok mask)
    (a i : Nat) (cE : List (Option ℚ)) (cM : List Bool)
    (hE : es.events.get? a = some cE) (hM : mask.get? a = some cM)
    (hi : i < cE.length)
    (hbefore : ∃ j, i < j ∧ j ≤ i + lbNat es ∧ ((cE.get? j).join).isSome)
    (hafter : ∃ j, j < i ∧ i ≤ j + lfNat es ∧ ((cE.get? j).join).isSome)
    (hnotev : ((cE.get? i).join) = none) :
    cM.get? i = some false := by
  obtain ⟨hs, he, hmask⟩ := (markEventWindows_eq_ok_iff es true mask).mp hok
  subst hmask
  rw [List.get?_map, hE] at hM
  have hcm : markColPure (lbNat es) (lfNat es) true cE = cM :=
    Option.some.inj hM
  subst hcm
  have hbf : (bfillAt (lbNat es) (eventMarker cE) i).isSome := by
    rw [bfillAt_isSome_iff]
    obtain ⟨j, h1, h2, h3⟩ := hbefore
    exact ⟨j, by omega, h2, (eventMarker_join_isSome_iff cE j).mpr h3⟩
  have hff : (ffillAt (lfNat es) (eventMarker cE) i).isSome := by
    rw [ffillAt_isSome_iff]
    obtain ⟨j, h1, h2, h3⟩ := hafter
    exact ⟨j, by omega, h2, (eventMarker_join_isSome_iff cE j).mpr h3⟩
  have hgd : (eventMarker cE).getD i none = none := by
    have h9 : (eventMarker cE).get? i = some none := by
      cases h8 : (eventMarker cE).get? i with
      | none =>
        exfalso
        rw [List.get?_eq_none] at h8
        simp only [length_eventMarker] at h8
        omega
      | some x =>
        have h10 := eventMarker_join cE i
        rw [h8, hnotev] at h10
        simp at h10
        rw [h10]
    rw [List.getD_eq_getD_get?, h9]
    rfl
  rw [markColPure, get?_markMask _ _ _ _ (by simpa using hi), hbf, hff, hgd]
  simp

/-- C2 (witness): on `esB` the slot at index 3 sits between the events at
indexes 2 and 5 and is excluded. -/
theorem mark_event_windows_excludes_ambiguous_slot_witness :
    markEventWindows esB true =
        .ok [[true, true, true, false, false, true, true, true]] ∧
      ([true, true, true, false, false, true, true, true] : List Bool).get? 3
        = some false :=
  ⟨by rfl,
    mark_event_windows_excludes_ambiguous_slot esB
      [[true, true, true, false, false, true, true, true]] (by rfl) 0 3
      [none, none, some 1, none, none, some 1, none, none]
      [true, true, true, false, false, true, true, true]
      (by rfl) (by rfl) (by decide)
      ⟨5, by decide, by decide, by decide⟩
      ⟨2, by decide, by decide, by decide⟩ (by rfl)⟩

/-! ## C10: the mask depends only on event positions -/

/-- C10: two engines sharing the calendar, asset count, window,
`event_date_index` and the per-asset event positions produce identical
masks from `mark_event_windows`, even when the panels' numeric values and
the events' magnitudes differ. -/
theorem mark_event_windows_positions_only (es1 es2 : EventStudy) (excl : Bool)
    (hcal : es1.calendar = es2.calendar)
    (hassets : es1.data.length = es2.data.length)
    (hwin : es1.window = es2.window)
    (hedi : es1.event_date_index = es2.event_date_index)
    (hpos : es1.events.map (List.map Option.isSome)
      = es2.events.map (List.map Option.isSome)) :
    markEventWindows es1 excl = markEventWindows es2 excl := by
  have hmap : ∀ lb lf : Nat,
      es1.events.map (markColPure lb lf excl)
        = es2.events.map (markColPure lb lf excl) := by
    intro lb lf
    have h1 : ∀ es : EventStudy, es.events.map (markColPure lb lf excl)
        = (es.events.map (List.map Option.isSome)).map
            (fun bs => markMask lb lf excl
              (bs.map (fun b => if b then some true else none))) := by
      intro es
      rw [List.map_map]
      rfl
    rw [h1 es1, h1 es2, hpos]
  simp only [markEventWindows, hwin, hedi]
  cases fillLimit (-(es2.window.1)) with
  | error e => rfl
  | ok lb =>
    cases fillLimit (es2.window.2 - es2.event_date_index) with
    | error e => rfl
    | ok lf =>
      show Except.ok (es1.events.map (markColPure lb lf excl))
        = Except.ok (es2.events.map (markColPure lb lf excl))
      rw [hmap]

/-- C10 (witness): `esD1` and `esD2` differ in data values and event
magnitudes but share event positions; their masks coincide. -/
theorem mark_event_windows_positions_only_witness :
    esD1.data ≠ esD2.data ∧ esD1.events ≠ esD2.events ∧
      markEventWindows esD1 true = markEventWindows esD2 true :=
  ⟨by decide, by decide,
    mark_event_windows_positions_only esD1 esD2 true (by rfl) (by rfl)
      (by rfl) (by rfl) (by decide)⟩

/-! ## C3: window of a single isolated event -/

theorem countP_range_interval (n a c : Nat) :
    (List.range n).countP (fun i => decide (a ≤ i ∧ i ≤ c))
      = min (c + 1) n - min a n := by
  induction n with
  | zero => simp
  | succ n ih =>
    rw [List.range_succ, List.countP_append, ih]
    simp only [List.countP_cons, List.countP_nil, Nat.zero_add]
    by_cases h : a ≤ n ∧ n ≤ c
    · rw [if_pos (decide_eq_true h)]
      omega
    · rw [if_neg (fun hc => absurd (of_decide_eq_true hc) h)]
      omega

/-- C3 (counterexample): on `esC3bad` (single isolated event, window
`(s, e) = (-1, 2)`, `event_date_index = 1`) the mask holds 3 true slots,
not `e - s + 1 = 4` as the claim states for every engine. -/
theorem mark_event_windows_isolated_count_cex :
    markEventWindows esC3bad true =
        .ok [[false, true, true, true, false, false]] ∧
      (([false, true, true, true, false, false] : List Bool).countP id : Int)
        ≠ esC3bad.window.2 - esC3bad.window.1 + 1 := by
  constructor
  · rfl
  · decide

/-- C3 (amended): for every engine holding a single isolated event for an
asset (here: the only event of that asset's column), a successful
`mark_event_windows` marks exactly the contiguous interval
`[j - (-start), j + (end - event_date_index)]` around the event position
`j`, hence `(end - event_date_index) - start + 1` slots when the window is
not truncated by a calendar boundary and fewer (the truncated interval)
otherwise, and no slot is excluded as ambiguous (the flag makes no
difference on that column). -/
theorem mark_event_windows_single_event (es : EventStudy) (excl : Bool)
    (mask : List (List Bool)) (a j : Nat) (cE : List (Option ℚ))
    (cM : List Bool)
    (hok : markEventWindows es excl = .ok mask)
    (hE : es.events.get? a = some cE) (hM : mask.get? a = some cM)
    (hj : ((cE.get? j).join).isSome)
    (huniq : ∀ p, p ≠ j → ((cE.get? p).join) = none) :
    (∀ i, i < cE.length →
        cM.get? i = some (decide (j - lbNat es ≤ i ∧ i ≤ j + lfNat es))) ∧
      cM.countP id = min (j + lfNat es + 1) cE.length - min (j - lbNat es) cE.length ∧
      (lbNat es ≤ j → j + lfNat es < cE.length →
        cM.countP id = lbNat es + lfNat es + 1) ∧
      markColPure (lbNat es) (lfNat es) true cE
        = markColPure (lbNat es) (lfNat es) false cE := by
  obtain ⟨hs, he, hmask⟩ := (markEventWindows_eq_ok_iff es excl mask).mp hok
  subst hmask
  rw [List.get?_map, hE] at hM
  have hcm : markColPure (lbNat es) (lfNat es) excl cE = cM :=
    Option.some.inj hM
  set lb := lbNat es with hlb
  set lf := lfNat es with hlf
  set m := eventMarker cE with hmdef
  have hn : j < cE.length := by
    by_contra hlt
    rw [List.get?_eq_none.mpr (by omega)] at hj
    exact Bool.noConfusion hj
  have hm_iff : ∀ p, (((m.get? p).join).isSome) ↔ p = j := by
    intro p
    constructor
    · intro h
      by_contra hne
      rw [hmdef, eventMarker_join, huniq p hne] at h
      simp at h
    · intro hp
      rw [hp]
      exact (eventMarker_join_isSome_iff cE j).mpr hj
  have hmj : (m.get? j).join = some true := by
    rw [hmdef, eventMarker_join, if_pos hj]
  have hbf_iff : ∀ i, (bfillAt lb m i).isSome ↔ (i ≤ j ∧ j ≤ i + lb) := by
    intro i
    rw [bfillAt_isSome_iff]
    constructor
    · rintro ⟨p, h1, h2, h3⟩
      have := (hm_iff p).mp h3
      subst this
      exact ⟨h1, by omega⟩
    · rintro ⟨h1, h2⟩
      exact ⟨j, h1, by omega, (hm_iff j).mpr rfl⟩
  have hff_iff : ∀ i, (ffillAt lf m i).isSome ↔ (j ≤ i ∧ i ≤ j + lf) := by
    intro i
    rw [ffillAt_isSome_iff]
    constructor
    · rintro ⟨p, h1, h2, h3⟩
      have := (hm_iff p).mp h3
      subst this
      exact ⟨h1, by omega⟩
    · rintro ⟨h1, h2⟩
      exact ⟨j, h1, by omega, (hm_iff j).mpr rfl⟩
  have hbl_join : ∀ p, ((((bfill lb m).get? p).join).isSome)
      ↔ (p < cE.length ∧ p ≤ j ∧ j ≤ p + lb) := by
    intro p
    by_cases hp : p < m.length
    · rw [get?_bfill _ _ hp]
      have hpn : p < cE.length := by simpa [hmdef] using hp
      rw [show ((some (bfillAt lb m p)).join) = bfillAt lb m p from rfl]
      rw [hbf_iff p]
      constructor
      · rintro ⟨h1, h2⟩; exact ⟨hpn, h1, h2⟩
      · rintro ⟨-, h1, h2⟩; exact ⟨h1, h2⟩
    · rw [get?_bfill_of_ge _ _ (by omega)]
      have hpn : ¬ p < cE.length := by
        simp only [hmdef, length_eventMarker] at hp
        omega
      constructor
      · intro h; exact Bool.noConfusion h
      · rintro ⟨h1, -, -⟩; exact absurd h1 hpn
  have hraw_iff : ∀ i, i < cE.length →
      ((ffillAt lf (bfill lb m) i).isSome
        ↔ (j - lb ≤ i ∧ i ≤ j + lf)) := by
    intro i hi
    rw [ffillAt_isSome_iff]
    constructor
    · rintro ⟨p, h1, h2, h3⟩
      rw [hbl_join p] at h3
      obtain ⟨-, h4, h5⟩ := h3
      exact ⟨by omega, by omega⟩
    · rintro ⟨h1, h2⟩
      refine ⟨min i j, by omega, by omega, ?_⟩
      rw [hbl_join]
      exact ⟨by omega, by omega, by omega⟩
  have hconf : ∀ i, ((bfillAt lb m i).isSome && (ffillAt lf m i).isSome
      && !(m.getD i none).isSome) = false := by
    intro i
    by_cases h1 : (bfillAt lb m i).isSome
    · by_cases h2 : (ffillAt lf m i).isSome
      · have hij : i = j := by
          have ha := (hbf_iff i).mp h1
          have hb := (hff_iff i).mp h2
          omega
        subst hij
        have h9 : m.get? i = some (some true) := by
          cases h8 : m.get? i with
          | none => rw [h8] at hmj; exact Option.noConfusion hmj
          | some x => rw [h8] at hmj; exact congrArg some hmj
        have : m.getD i none = some true := by
          rw [List.getD_eq_getD_get?, h9]; rfl
        rw [h1, h2, this]
        rfl
      · simp [h2]
    · simp [h1]
  have helem : ∀ (ex : Bool) (i : Nat), i < cE.length →
      (markColPure lb lf ex cE).get? i
        = some (decide (j - lb ≤ i ∧ i ≤ j + lf)) := by
    intro ex i hi
    rw [markColPure, get?_markMask _ _ _ _ (by simpa [hmdef] using hi)]
    rw [← hmdef, hconf i, Bool.and_false, Bool.not_false, Bool.and_true]
    congr 1
    by_cases hP : (j - lb ≤ i ∧ i ≤ j + lf)
    · rw [(hraw_iff i hi).mpr hP, decide_eq_true hP]
    · have h13 : (ffillAt lf (bfill lb m) i).isSome = false := by
        rw [← Bool.not_eq_true]
        intro hc
        exact hP ((hraw_iff i hi).mp hc)
      rw [h13, decide_eq_false hP]
  have hlist : ∀ ex : Bool, markColPure lb lf ex cE
      = (List.range cE.length).map
          (fun i => decide (j - lb ≤ i ∧ i ≤ j + lf)) := by
    intro ex
    apply List.ext_get?
    intro i
    by_cases hi : i < cE.length
    · rw [helem ex i hi, List.get?_map, List.get?_range hi]
      rfl
    · have hge : cE.length ≤ i := by omega
      rw [List.get?_eq_none.mpr (by simpa using hge),
        List.get?_eq_none.mpr (by simpa using hge)]
  have hcomp : (id ∘ fun i => decide (j - lb ≤ i ∧ i ≤ j + lf))
      = fun i => decide (j - lb ≤ i ∧ i ≤ j + lf) := rfl
  refine ⟨?_, ?_, ?_, ?_⟩
  · intro i hi
    rw [← hcm, helem excl i hi]
  · rw [← hcm, hlist excl, List.countP_map, hcomp, countP_range_interval]
  · intro h1 h2
    rw [← hcm, hlist excl, List.countP_map, hcomp, countP_range_interval]
    omega
  · rw [hlist true, hlist false]

/-- C3 (witness): single isolated event at index 2 of a 6-slot calendar,
window `(-1, 2)`, `event_date_index = 0`: the mask is the contiguous
interval `[1, 4]` with `(2 - 0) - (-1) + 1 = 4` true slots and no
ambiguous exclusion. -/
theorem mark_event_windows_single_event_witness :
    markEventWindows esC3w true =
        .ok [[false, true, true, true, true, false]] ∧
      ((∀ i, i < ([none, none, some 1, none, none, none] :
            List (Option ℚ)).length →
          ([false, true, true, true, true, false] : List Bool).get? i
            = some (decide (2 - lbNat esC3w ≤ i ∧ i ≤ 2 + lfNat esC3w))) ∧
        ([false, true, true, true, true, false] : List Bool).countP id
          = min (2 + lfNat esC3w + 1) 6 - min (2 - lbNat esC3w) 6 ∧
        (lbNat esC3w ≤ 2 → 2 + lfNat esC3w < 6 →
          ([false, true, true, true, true, false] : List Bool).countP id
            = lbNat esC3w + lfNat esC3w + 1) ∧
        markColPure (lbNat esC3w) (lfNat esC3w) true
            [none, none, some 1, none, none, none]
          = markColPure (lbNat esC3w) (lfNat esC3w) false
            [none, none, some 1, none, none, none]) :=
  ⟨by rfl,
    mark_event_windows_single_event esC3w true
      [[false, true, true, true, true, false]] 0 2
      [none, none, some 1, none, none, none]
      [false, true, true, true, true, false]
      (by rfl) (by rfl) (by rfl) (by rfl)
      (by
        intro p hp
        match p with
        | 0 => rfl
        | 1 => rfl
        | 2 => exact absurd rfl hp
        | 3 => rfl
        | 4 => rfl
        | 5 => rfl
        | n + 6 => rfl)⟩

/-- C6: on a panel with a duplicate-free calendar (the Panel invariant),
engine construction fails with the alignment error if and only if some
event timestamp is absent from the panel calendar; misaligned inputs are
never silently dropped. -/
theorem mk_event_study_alignment_error_iff (dataIdx : List Nat)
    (dataCols : List (List (Option ℚ))) (evIdx : List Nat)
    (evRows : List (List (Option ℚ))) (window : Int × Int) (edi : Int)
    (hnodup : dataIdx.Nodup) :
    (∃ e, mkEventStudy dataIdx dataCols evIdx evRows window edi = .error e) ↔
      ∃ t ∈ eventTimestamps evIdx evRows, t ∉ dataIdx := by
  have key : dataIdx.length < unionLen dataIdx evIdx evRows ↔
      ∃ t ∈ eventTimestamps evIdx evRows, t ∉ dataIdx := by
    rw [unionLen, ← List.card_toFinset, List.toFinset_append]
    nth_rewrite 1 [← List.toFinset_card_of_nodup hnodup]
    constructor
    · intro h
      by_contra hall
      push_neg at hall
      have hsub : (eventTimestamps evIdx evRows).toFinset ⊆ dataIdx.toFinset := by
        intro t ht
        rw [List.mem_toFinset] at ht ⊢
        exact hall t ht
      rw [Finset.union_eq_left.mpr hsub] at h
      omega
    · rintro ⟨t, ht, hnot⟩
      apply Finset.card_lt_card
      constructor
      · exact Finset.subset_union_left
      · intro hsub
        apply hnot
        rw [← List.mem_toFinset]
        exact hsub (Finset.mem_union_right _ (List.mem_toFinset.mpr ht))
  rw [mkEventStudy]
  by_cases hc : dataIdx.length < unionLen dataIdx evIdx evRows
  · rw [if_pos hc]
    exact iff_of_true ⟨_, rfl⟩ (key.mp hc)
  · rw [if_neg hc]
    refine iff_of_false ?_ (fun hr => hc (key.mpr hr))
    rintro ⟨e, he⟩
    exact Except.noConfusion he

/-- C6 (witness): an event at timestamp 5 that is missing from the calendar
`[1, 2, 3]` makes construction fail. -/
theorem mk_event_study_alignment_error_iff_witness :
    ([1, 2, 3] : List Nat).Nodup ∧
      ((∃ e, mkEventStudy [1, 2, 3] [[some 1, some 2, some 3]] [5]
          [[some 1]] (-1, 1) 0 = .error e) ↔
        ∃ t ∈ eventTimestamps [5] [[some 1]], t ∉ ([1, 2, 3] : List Nat)) :=
  ⟨by decide,
    mk_event_study_alignment_error_iff [1, 2, 3] [[some 1, some 2, some 3]]
      [5] [[some 1]] (-1, 1) 0 (by decide)⟩

theorem nanSum_cons (x : Option ℚ) (l : List (Option ℚ)) :
    nanSum (x :: l) = x.getD 0 + nanSum l := by
  cases x with
  | none => simp [nanSum]
  | some v => simp [nanSum]

theorem nanSum_div (row : List (List (Option ℚ))) (T : ℚ) :
    nanSum (row.map (fun g => (nanMean g).map
        (fun mg => mg * (nnCount g : ℚ) / T)))
      = nanSum (row.map (fun g => (nanMean g).map
          (fun mg => mg * (nnCount g : ℚ)))) / T := by
  induction row with
  | nil => simp [nanSum]
  | cons g gs ih =>
    rw [List.map_cons, List.map_cons, nanSum_cons, nanSum_cons, ih, add_div]
    congr 1
    cases h : nanMean g with
    | none => simp
    | some mg => simp

/-- C4: at every offset of the event-relative panel, `event_weighted_mean`
returns the sum over assets of (mean of the asset's event values at that
offset, times the count of the asset's non-missing events there), divided
by the total non-missing count across assets, whenever at least one cell
is non-missing at that offset. -/
theorem event_weighted_mean_matches_formula
    (df : List (List (List (Option ℚ)))) (t : Nat)
    (row : List (List (Option ℚ))) (hrow : df.get? t = some row)
    (hnz : 0 < (row.map nnCount).sum) :
    (event_weighted_mean df).get? t = some (eventWeightedMeanSpecRow row) := by
  rw [event_weighted_mean, List.get?_map, hrow]
  have : event_weighted_mean_row row = eventWeightedMeanSpecRow row := by
    rw [event_weighted_mean_row, eventWeightedMeanSpecRow, nanSum_div]
  rw [Option.map_some', this]

/-- C4 (witness): asset A has 2 events worth `1.0` and asset B has 1 event
worth `4.0` at the offset; the weighted mean is `(1*2 + 4*1)/3 = 2`. -/
theorem event_weighted_mean_matches_formula_witness :
    0 < (([[some 1, some 1], [some 4]] :
        List (List (Option ℚ))).map nnCount).sum ∧
      (event_weighted_mean [[[some 1, some 1], [some 4]]]).get? 0
        = some (eventWeightedMeanSpecRow [[some 1, some 1], [some 4]]) ∧
      eventWeightedMeanSpecRow [[some 1, some 1], [some 4]] = 2 :=
  ⟨by decide,
    event_weighted_mean_matches_formula [[[some 1, some 1], [some 4]]] 0
      [[some 1, some 1], [some 4]] rfl (by decide),
    by
      have h1 : nanMean [(some 1 : Option ℚ), some 1] = some 1 := by
        simp [nanMean]
      have h2 : nanMean [(some 4 : Option ℚ)] = some 4 := by
        simp [nanMean]
      rw [eventWeightedMeanSpecRow, List.map_cons, List.map_cons, List.map_nil,
        h1, h2, Option.map_some', Option.map_some', nanSum_cons, nanSum_cons]
      rw [show nanSum [] = 0 from rfl]
      rw [show nnCount [(some 1 : Option ℚ), some 1] = 2 from rfl,
        show nnCount [(some 4 : Option ℚ)] = 1 from rfl,
        show (List.map nnCount [[(some 1 : Option ℚ), some 1], [some 4]]).sum
          = 3 from rfl]
      simp only [Option.getD_some]
      push_cast
      norm_num⟩

/-- C1: for the panel of 10 daily values `1..10` for asset "X", one event
at day 5, window `(-2, 2)` and `event_date_index = 0`, the pivoted column
keyed by (X, day 5) holds exactly the values 3, 4, 5, 6, 7 at relative
offsets -2, -1, 0, 1, 2, and the row index is exactly the closed range
`[-2, 2]`. -/
theorem pivot_single_event_concrete :
    pivotVal esC1 0 5 (-2) = .ok (some 3) ∧
      pivotVal esC1 0 5 (-1) = .ok (some 4) ∧
      pivotVal esC1 0 5 0 = .ok (some 5) ∧
      pivotVal esC1 0 5 1 = .ok (some 6) ∧
      pivotVal esC1 0 5 2 = .ok (some 7) ∧
      pivotRowIndex esC1 0 = .ok [-2, -1, 0, 1, 2] :=
  ⟨rfl, rfl, rfl, rfl, rfl, rfl⟩

/-- C7: a block size at least as large as the event-free pool makes
`bootstrap_wo_events` fail fast with the invalid-parameter error raised by
`np.random.choice` over the empty `np.arange(len(boot_from) - block_size)`;
it neither loops nor returns a degenerate engine. -/
theorem bootstrap_wo_events_block_too_large (es : EventStudy) (bs : Nat)
    (rnd : List Nat) (fuel : Nat) (mask : List (List Bool))
    (hmask : markEventWindows es false = .ok mask)
    (hbs : 0 < bs)
    (hge : (eventFreePool es.calendar.length es.data mask).length ≤ bs) :
    bootstrap_wo_events es (some bs) rnd fuel = .error "a must be non-empty" := by
  simp only [bootstrap_wo_events, Option.getD_some, hmask]
  rw [if_neg (by omega : ¬ bs = 0)]
  rw [if_pos (by omega :
    ((eventFreePool es.calendar.length es.data mask).length : Int)
      - (bs : Int) ≤ 0)]

theorem bootGrow_ok_not_short {pool : List (List (Option ℚ))}
    {bs bound : Nat} {counts : List Nat} :
    ∀ {fuel : Nat} {rnd : List Nat} {booted b : List (List (Option ℚ))}
      {r : List Nat},
      bootGrow pool bs bound counts fuel rnd booted = .ok (b, r) →
        anyShort b counts = false := by
  intro fuel
  induction fuel with
  | zero => intro rnd booted b r h; exact Except.noConfusion h
  | succ fuel ih =>
    intro rnd booted b r h
    cases rnd with
    | nil =>
      rw [bootGrow] at h
      by_cases hs : anyShort booted counts
      · rw [if_pos hs] at h
        exact Except.noConfusion h
      · rw [if_neg hs] at h
        cases h
        simpa using hs
    | cons d rnd' =>
      rw [bootGrow] at h
      by_cases hs : anyShort booted counts
      · rw [if_pos hs] at h
        exact ih h
      · rw [if_neg hs] at h
        cases h
        simpa using hs

theorem anyShort_false {b : List (List (Option ℚ))} {counts : List Nat}
    (h : anyShort b counts = false) :
    ∀ a, a < counts.length → counts.getD a 0 ≤ colCountRows b a := by
  intro a ha
  by_contra hlt
  have ht : anyShort b counts = true := by
    rw [anyShort, List.any_eq_true]
    exact ⟨a, List.mem_range.mpr ha, decide_eq_true (by omega)⟩
  rw [h] at ht
  exact Bool.noConfusion ht

theorem get_not_mem_eraseIdx : ∀ (l : List Nat), l.Nodup →
    ∀ (i : Nat) (h : i < l.length), l.get ⟨i, h⟩ ∉ l.eraseIdx i := by
  intro l
  induction l with
  | nil => intro _ i h; exact absurd h (by simp)
  | cons x xs ih =>
    intro hnd i h
    cases i with
    | zero => simpa using (List.nodup_cons.mp hnd).1
    | succ i =>
      intro hmem
      rcases List.mem_cons.mp hmem with h1 | h1
      · exact (List.nodup_cons.mp hnd).1 (h1 ▸ List.get_mem xs i _)
      · exact ih (List.nodup_cons.mp hnd).2 i _ h1

theorem getD_eq_get_of_lt (l : List Nat) {i : Nat} (h : i < l.length) :
    l.getD i 0 = l.get ⟨i, h⟩ := by
  rw [List.getD_eq_getD_get?, List.get?_eq_get h]
  rfl

theorem drawWoRGo_ok : ∀ {v : Nat} {avail rnd ps r : List Nat},
    drawWoRGo v avail rnd = .ok (ps, r) → avail.Nodup →
      ps.length = v ∧ ps.Nodup ∧ ∀ p ∈ ps, p ∈ avail := by
  intro v
  induction v with
  | zero =>
    intro avail rnd ps r h _
    rw [drawWoRGo] at h
    cases h
    exact ⟨rfl, List.nodup_nil, by simp⟩
  | succ v ih =>
    intro avail rnd ps r h hnd
    cases avail with
    | nil =>
      cases rnd with
      | nil => exact Except.noConfusion h
      | cons d rnd => exact Except.noConfusion h
    | cons x avail =>
      cases rnd with
      | nil => exact Except.noConfusion h
      | cons d rnd =>
        rw [drawWoRGo] at h
        simp only [Bind.bind] at h
        set i := d % (x :: avail).length with hidef
        have hilt : i < (x :: avail).length :=
          Nat.mod_lt _ (by simp)
        cases hrec : drawWoRGo v ((x :: avail).eraseIdx i) rnd with
        | error e => rw [hrec] at h; exact Except.noConfusion h
        | ok pr =>
          obtain ⟨ps', r'⟩ := pr
          rw [hrec] at h
          simp only [Except.bind, pure, Except.pure] at h
          cases h
          have hesub : List.Sublist ((x :: avail).eraseIdx i) (x :: avail) :=
            List.eraseIdx_sublist _ i
          obtain ⟨hl, hn, hm⟩ := ih hrec (hesub.nodup hnd)
          have hpick : (x :: avail).getD i 0 = (x :: avail).get ⟨i, hilt⟩ :=
            getD_eq_get_of_lt _ hilt
          refine ⟨by simp [hl], ?_, ?_⟩
          · rw [List.nodup_cons]
            refine ⟨?_, hn⟩
            intro hmem
            exact get_not_mem_eraseIdx (x :: avail) hnd i hilt
              (hpick ▸ hm _ hmem)
          · intro p hp
            rcases List.mem_cons.mp hp with h1 | h1
            · rw [h1, hpick]; exact List.get_mem _ _ _
            · exact hesub.subset (hm p h1)

theorem drawWoR_ok {bound v : Nat} {rnd ps r : List Nat}
    (h : drawWoR bound v rnd = .ok (ps, r)) :
    ps.length = v ∧ ps.Nodup ∧ ∀ p ∈ ps, p < bound := by
  rw [drawWoR] at h
  by_cases hb : bound < v
  · rw [if_pos hb] at h; exact Except.noConfusion h
  · rw [if_neg hb] at h
    obtain ⟨h1, h2, h3⟩ := drawWoRGo_ok h (List.nodup_range bound)
    exact ⟨h1, h2, fun p hp => List.mem_range.mp (h3 p hp)⟩

theorem countP_range_contains {len : Nat} {ps : List Nat} (hnd : ps.Nodup)
    (hlt : ∀ p ∈ ps, p < len) :
    (List.range len).countP (fun i => ps.contains i) = ps.length := by
  rw [List.countP_eq_length_filter]
  have hperm : List.Perm ((List.range len).filter (fun i => ps.contains i)) ps := by
    apply List.perm_of_nodup_nodup_toFinset_eq
    · exact (List.nodup_range len).filter _
    · exact hnd
    · ext t
      simp only [List.mem_toFinset, List.mem_filter, List.mem_range,
        List.contains, List.elem_eq_mem, decide_eq_true_eq]
      constructor
      · rintro ⟨-, h2⟩; exact h2
      · intro ht; exact ⟨hlt t ht, ht⟩
  exact hperm.length_eq

theorem nnCount_eventColFromPositions {len : Nat} {ps : List Nat}
    (hnd : ps.Nodup) (hlt : ∀ p ∈ ps, p < len) :
    nnCount (eventColFromPositions len ps) = ps.length := by
  rw [nnCount, eventColFromPositions, List.countP_map]
  have hcg : ∀ i ∈ List.range len,
      (((fun x : Option ℚ => x.isSome)
          ∘ fun i => if ps.contains i then some 1 else none) i = true
        ↔ (fun i => ps.contains i) i = true) := by
    intro i _
    by_cases hc : i ∈ ps
    · simp [Function.comp, List.contains, hc]
    · simp [Function.comp, List.contains, hc]
  rw [List.countP_congr hcg]
  exact countP_range_contains hnd hlt

theorem drawEventCols_ok {len : Nat} : ∀ {counts rnd : List Nat}
    {cols : List (List (Option ℚ))} {r : List Nat},
    drawEventCols len counts rnd = .ok (cols, r) →
      cols.length = counts.length ∧
        ∀ a, a < counts.length → nnCount (cols.getD a []) = counts.getD a 0 := by
  intro counts
  induction counts with
  | nil =>
    intro rnd cols r h
    rw [drawEventCols] at h
    cases h
    exact ⟨rfl, fun a ha => absurd ha (by simp)⟩
  | cons v vs ih =>
    intro rnd cols r h
    rw [drawEventCols] at h
    simp only [Bind.bind] at h
    cases h1 : drawWoR len v rnd with
    | error e => rw [h1] at h; exact Except.noConfusion h
    | ok pr1 =>
      obtain ⟨ps, rnd1⟩ := pr1
      rw [h1] at h
      simp only [Except.bind] at h
      cases h2 : drawEventCols len vs rnd1 with
      | error e => rw [h2] at h; exact Except.noConfusion h
      | ok pr2 =>
        obtain ⟨cols', rnd2⟩ := pr2
        rw [h2] at h
        simp only [pure, Except.pure] at h
        cases h
        obtain ⟨hl, hnd, hlt⟩ := drawWoR_ok h1
        obtain ⟨hlen', hcols'⟩ := ih h2
        refine ⟨by simp [hlen'], ?_⟩
        intro a ha
        cases a with
        | zero =>
          show nnCount (eventColFromPositions len ps) = v
          rw [nnCount_eventColFromPositions hnd hlt, hl]
        | succ a => exact hcols' a (by simpa using ha)

theorem getD_map_of_lt {X Y : Type} (f : X → Y) (l : List X) {a : Nat}
    (h : a < l.length) (dx : X) (dy : Y) :
    (l.map f).getD a dy = f (l.getD a dx) := by
  rw [List.getD_eq_getD_get?, List.getD_eq_getD_get?, List.get?_map]
  cases hg : l.get? a with
  | none => exact absurd (List.get?_eq_none.mp hg) (by omega)
  | some x => rfl

theorem nnCount_map_getD (rows : List (List (Option ℚ))) (a : Nat) :
    nnCount (rows.map (fun r => r.getD a none)) = colCountRows rows a := by
  rw [nnCount, List.countP_map]
  rfl

/-- C5: every successful call of `bootstrap_wo_events` returns an engine
whose panel has, for every asset, a non-missing count at least the
original panel's (the resampling loop's exit condition) and whose event
set has, for every asset, exactly as many synthetic events as the asset
had real events. -/
theorem bootstrap_wo_events_counts (es : EventStudy) (bsOpt : Option Nat)
    (rnd : List Nat) (fuel : Nat) (es' : EventStudy)
    (h : bootstrap_wo_events es bsOpt rnd fuel = .ok es') :
    (es'.data.length = es.data.length ∧
      ∀ a, a < es.data.length →
        nnCount (es.data.getD a []) ≤ nnCount (es'.data.getD a [])) ∧
      (es'.events.length = es.events.length ∧
        ∀ a, a < es.events.length →
          nnCount (es'.events.getD a []) = nnCount (es.events.getD a [])) := by
  simp only [bootstrap_wo_events] at h
  split at h
  · exact Except.noConfusion h
  · split at h
    · exact Except.noConfusion h
    · split at h
      · exact Except.noConfusion h
      · split at h
        · exact Except.noConfusion h
        · split at h
          · exact Except.noConfusion h
          · rename_i mask hmask booted rnd2 hgrow
            split at h
            · exact Except.noConfusion h
            · rename_i evCols rnd3 hdraw
              cases h
              have hshort := anyShort_false (bootGrow_ok_not_short hgrow)
              obtain ⟨hevlen, hevcnt⟩ := drawEventCols_ok hdraw
              constructor
              · constructor
                · simp [transposeRows]
                · intro a ha
                  have h3 : (transposeRows es.data.length booted).getD a []
                      = booted.map (fun r => r.getD a none) := by
                    rw [transposeRows,
                      getD_map_of_lt _ (List.range es.data.length)
                        (by simpa using ha) 0 []]
                    rw [getD_eq_get_of_lt _ (by simpa using ha),
                      List.get_range]
                  rw [h3, nnCount_map_getD]
                  have h4 := hshort a (by simpa using ha)
                  rwa [getD_map_of_lt nnCount es.data ha [] 0] at h4
              · constructor
                · rw [hevlen, List.length_map]
                · intro a ha
                  have h5 := hevcnt a (by simpa using ha)
                  rwa [getD_map_of_lt nnCount es.events ha [] 0] at h5

/-- C5 (witness): a concrete successful bootstrap run, with its count
guarantees instantiated. -/
theorem bootstrap_wo_events_counts_witness :
    bootstrap_wo_events esC5 (some 2) [0, 0, 0, 0, 0, 0, 0, 0, 0] 1
        = .ok esC5boot ∧
      ((esC5boot.data.length = esC5.data.length ∧
        ∀ a, a < esC5.data.length →
          nnCount (esC5.data.getD a []) ≤ nnCount (esC5boot.data.getD a [])) ∧
        (esC5boot.events.length = esC5.events.length ∧
          ∀ a, a < esC5.events.length →
            nnCount (esC5boot.events.getD a [])
              = nnCount (esC5.events.getD a []))) :=
  ⟨rfl,
    bootstrap_wo_events_counts esC5 (some 2) [0, 0, 0, 0, 0, 0, 0, 0, 0] 1
      esC5boot rfl⟩

/-- C7 (witness): with the pool of 5 rows and block size 5, the bootstrap
fails fast. -/
theorem bootstrap_wo_events_block_too_large_witness :
    markEventWindows esC5 false =
        .ok [[false, false, false, false, false, true, true, true]] ∧
      (eventFreePool esC5.calendar.length esC5.data
        [[false, false, false, false, false, true, true, true]]).length ≤ 5 ∧
      bootstrap_wo_events esC5 (some 5) [0, 0] 1 = .error "a must be non-empty" :=
  ⟨by rfl, by decide,
    bootstrap_wo_events_block_too_large esC5 5 [0, 0] 1
      [[false, false, false, false, false, true, true, true]]
      (by rfl) (by decide) (by decide)⟩

end EventStudyModel

